import Mathlib

/-!
# Verification of the SDLife board core (`src/board.h`)

The repository ships the header `board.h`: the `Board` structure (width,
height, flat cell buffer, rule string, topology-dependent cell lookup) and
the declarations of `initBoard`, `freeBoard`, `toggleCell`, `getRules`,
`setRules`, `updateBoard`, `clearBoard`.  The implementation file is not in
the repository, so every operation body below is modelled from the spec's
description of its behavior, while the data model follows the struct
declared in the header.
-/

/-- The default number of cells in a row of the board (`DEFAULT_BOARD_WIDTH`). -/
def DEFAULT_BOARD_WIDTH : Nat := 80

/-- The default number of cells in a column of the board (`DEFAULT_BOARD_HEIGHT`). -/
def DEFAULT_BOARD_HEIGHT : Nat := 60

/-- The board of the game, following the struct in `board.h`: width `w`,
height `h`, flat row-major cell buffer `cells`, the rules as a string of
format `B<m>/S<n>`, and the topology of the lookup function `getCell`
(a function pointer in the source, selected by the `wrap` flag at
initialization and rendered here as the boolean that selects it). -/
structure Board where
  w : Nat
  h : Nat
  cells : List Bool
  rules : String
  wrap : Bool
deriving Repr, DecidableEq

/-- Direct read of the flat buffer at row-major index `y*w + x`. -/
def Board.cellAt (b : Board) (x y : Nat) : Bool :=
  b.cells.getD (y * b.w + x) false

/-- Modelled from the spec: the board's cell-lookup function (the `getCell`
function pointer of the struct, whose two variants live in the missing
`board.c`).  Bounded variant: coordinates outside `[0,w)×[0,h)` return
"no such cell".  Toroidal variant: each coordinate `c` is reduced modulo its
dimension `n` as `((c % n) + n) % n`, always yielding a valid cell. -/
def Board.getCell (b : Board) (x y : Int) : Option Bool :=
  if b.wrap then
    let xi : Int := ((x % (b.w : Int)) + (b.w : Int)) % (b.w : Int)
    let yi : Int := ((y % (b.h : Int)) + (b.h : Int)) % (b.h : Int)
    some (b.cells.getD (yi.toNat * b.w + xi.toNat) false)
  else
    if 0 ≤ x ∧ x < (b.w : Int) ∧ 0 ≤ y ∧ y < (b.h : Int) then
      some (b.cells.getD (y.toNat * b.w + x.toNat) false)
    else
      none

/-- The 8 Moore-neighborhood offsets `{-1,0,1}² \ {(0,0)}`. -/
def mooreOffsets : List (Int × Int) :=
  [(-1, -1), (0, -1), (1, -1), (-1, 0), (1, 0), (-1, 1), (0, 1), (1, 1)]

/-- Modelled from the spec: the living-neighbor count used by the missing
`updateBoard` body — probe all 8 Moore offsets through the topology lookup;
a probe returning "no such cell" contributes 0. -/
def Board.countNeighbors (b : Board) (x y : Int) : Nat :=
  (mooreOffsets.map (fun d =>
    match b.getCell (x + d.1) (y + d.2) with
    | some true => 1
    | _ => 0)).sum

/-- A rule: the birth set and the survival set, as lists of neighbor counts
in the order (and with the repetitions) the parsed string supplied them. -/
structure Rule where
  birth : List Nat
  survive : List Nat
deriving Repr, DecidableEq

/-- Modelled from the spec: digit-run parsing inside the rule parser of the
missing `board.c` — every character must be a digit `0`–`8`; out-of-range or
non-digit characters make the whole parse fail. -/
def parseDigits : List Char → Option (List Nat)
  | [] => some []
  | c :: cs =>
      if '0' ≤ c ∧ c ≤ '8' then
        (parseDigits cs).map (fun ds => (c.toNat - 48) :: ds)
      else
        none

/-- Modelled from the spec: the rule parser of the missing `board.c` —
accepts exactly the strings `B<digits>/S<digits>` with digits `0`–`8` in any
order, duplicates allowed; rejects input missing the `B` or `S` marker or
containing out-of-range or non-digit characters. -/
def parseRules (s : String) : Option Rule :=
  match s.data with
  | 'B' :: rest =>
      match rest.dropWhile (fun c => c ≠ '/') with
      | '/' :: 'S' :: spart =>
          match parseDigits (rest.takeWhile (fun c => c ≠ '/')),
                parseDigits spart with
          | some bs, some ss => some ⟨bs, ss⟩
          | _, _ => none
      | _ => none
  | _ => none

/-- Ascending, deduplicated form of a digit set: the counts `0`–`8` that
occur in the list, in increasing order. -/
def canonDigits (l : List Nat) : List Nat :=
  (List.range 9).filter (fun d => d ∈ l)

/-- Render a digit list as its ascii digits. -/
def digitsStr (l : List Nat) : String :=
  ⟨l.map Nat.digitChar⟩

/-- Modelled from the spec: the canonical rendering installed in the board's
`rules` field — `B<digits>/S<digits>` with ascending, deduplicated digits. -/
def renderRule (r : Rule) : String :=
  "B" ++ digitsStr (canonDigits r.birth) ++ "/S" ++ digitsStr (canonDigits r.survive)

/-- Modelled from the spec: `getRules` of the missing `board.c` returns the
board's rule string (the struct's `rules` field); the board is taken by
`const` pointer and not modified. -/
def getRules (b : Board) : String :=
  b.rules

/-- Modelled from the spec: `setRules` of the missing `board.c` —
validate-then-apply: parse the string; on success replace the board's rule
(stored canonically), on failure leave the board untouched. -/
def setRules (b : Board) (s : String) : Board :=
  match parseRules s with
  | some r => { b with rules := renderRule r }
  | none => b

/-- The birth set the update algorithm reads from the board's rule string
(the board invariant keeps `rules` parseable at all times). -/
def Board.birthSet (b : Board) : List Nat :=
  ((parseRules b.rules).map Rule.birth).getD []

/-- The survival set the update algorithm reads from the board's rule string. -/
def Board.surviveSet (b : Board) : List Nat :=
  ((parseRules b.rules).map Rule.survive).getD []

/-- Modelled from the spec: the per-cell transition of the missing
`updateBoard` body — a dead cell becomes alive iff its neighbor count is in
the birth set, a living cell stays alive iff its count is in the survival
set. -/
def Board.nextCellState (b : Board) (x y : Nat) : Bool :=
  let n := b.countNeighbors x y
  if b.cellAt x y then decide (n ∈ b.surviveSet) else decide (n ∈ b.birthSet)

/-- Modelled from the spec: the successful path of `updateBoard` — compute
every next state from the stable pre-update grid into a fresh buffer (double
buffering), then install that buffer; dimensions, rule and topology are
untouched. -/
def updateBoard (b : Board) : Board :=
  { b with cells :=
      (List.range (b.w * b.h)).map (fun i => b.nextCellState (i % b.w) (i / b.w)) }

/-- Modelled from the spec: `updateBoard` with its allocation of the scratch
buffer made explicit — when the allocation fails (`alloc = false`) the call
returns `false` and the board is left exactly as it was; otherwise it
returns `true` and one generation is applied. -/
def updateBoardAlloc (alloc : Bool) (b : Board) : Bool × Board :=
  if alloc then (true, updateBoard b) else (false, b)

/-- Modelled from the spec: `toggleCell` of the missing `board.c` — flip the
cell at row-major index `y*w + x` and return the resulting state (paired
here with the updated board). -/
def toggleCell (b : Board) (x y : Nat) : Bool × Board :=
  let i := y * b.w + x
  let s := ! b.cells.getD i false
  (s, { b with cells := b.cells.set i s })

/-- Modelled from the spec: `clearBoard` of the missing `board.c` — set
every cell of the buffer to dead in a single pass; rule and topology are
untouched. -/
def clearBoard (b : Board) : Board :=
  { b with cells := b.cells.map (fun _ => false) }

/-- Modelled from the spec: the successful path of `initBoard` — zero
dimensions default to 80×60, the buffer holds `width*height` dead cells, the
default rule is Conway's `B3/S23`, and the lookup topology follows `wrap`. -/
def initBoard (width height : Nat) (wrap : Bool) : Board :=
  let w := if width = 0 then DEFAULT_BOARD_WIDTH else width
  let h := if height = 0 then DEFAULT_BOARD_HEIGHT else height
  { w := w, h := h, cells := List.replicate (w * h) false,
    rules := "B3/S23", wrap := wrap }

/-- Modelled from the spec: `initBoard` with the cell-buffer allocation made
explicit — returns `true` iff the board was correctly initialized; on
allocation failure no constructed board results. -/
def initBoardAlloc (alloc : Bool) (width height : Nat) (wrap : Bool) : Option Board :=
  if alloc then some (initBoard width height wrap) else none

/-- A concrete 3×3 bounded board holding a vertical blinker in its middle
column, used to exercise the update theorem. -/
def blinker3 : Board :=
  (toggleCell ((toggleCell ((toggleCell (initBoard 3 3 false) 1 0).2) 1 1).2) 1 2).2

/-- One documented board operation, for reasoning about whole lifetimes. -/
inductive BoardOp where
  | toggle (x y : Nat)
  | clear
  | setR (s : String)
  | getR
  | update (alloc : Bool)

/-- Apply one documented operation to a board (the board `getR` and a
failed `update` leave behind is the board itself). -/
def applyOp (b : Board) : BoardOp → Board
  | .toggle x y => (toggleCell b x y).2
  | .clear => clearBoard b
  | .setR s => setRules b s
  | .getR => b
  | .update alloc => (updateBoardAlloc alloc b).2

/-- Apply a sequence of documented operations, oldest first. -/
def applyOps (b : Board) (ops : List BoardOp) : Board :=
  ops.foldl applyOp b

/-- Modelled from the spec: a call to `getRules` as the caller observes it —
the returned string paired with the board after the call (`getRules` takes
the board by `const` pointer in the header and modifies nothing). -/
def getRulesCall (b : Board) : String × Board :=
  (getRules b, b)

/-! ## Helper lemmas -/

lemma toroidal_getCell_congr (b : Board) (hwrap : b.wrap = true)
    {x x' y y' : Int} (hx : x % (b.w : Int) = x' % (b.w : Int))
    (hy : y % (b.h : Int) = y' % (b.h : Int)) :
    b.getCell x y = b.getCell x' y' := by
  simp only [Board.getCell, hwrap, if_true]
  rw [hx, hy]

lemma getD_map_range {α : Type} (f : Nat → α) (N i : Nat) (d : α) (h : i < N) :
    ((List.range N).map f).getD i d = f i := by
  rw [List.getD_eq_getElem?_getD]
  rw [List.getElem?_map]
  rw [List.getElem?_range h]
  rfl

lemma rowMajor_inj {w : Nat} {x x' y y' : Nat} (hx : x < w) (hx' : x' < w)
    (h : y * w + x = y' * w + x') : x = x' ∧ y = y' := by
  constructor
  · have h1 : (y * w + x) % w = x := by
      rw [Nat.add_comm, Nat.add_mul_mod_self_right]
      exact Nat.mod_eq_of_lt hx
    have h2 : (y' * w + x') % w = x' := by
      rw [Nat.add_comm, Nat.add_mul_mod_self_right]
      exact Nat.mod_eq_of_lt hx'
    rw [← h1, ← h2, h]
  · have h1 : (y * w + x) / w = y := by
      rw [Nat.add_comm, Nat.add_mul_div_right _ _ (Nat.lt_of_le_of_lt (Nat.zero_le x) hx)]
      simp [Nat.div_eq_of_lt hx]
    have h2 : (y' * w + x') / w = y' := by
      rw [Nat.add_comm, Nat.add_mul_div_right _ _ (Nat.lt_of_le_of_lt (Nat.zero_le x') hx')]
      simp [Nat.div_eq_of_lt hx']
    rw [← h1, ← h2, h]

lemma set_getD_self (l : List Bool) (i : Nat) (hi : i < l.length) :
    l.set i (l.getD i false) = l := by
  induction l generalizing i with
  | nil => simp at hi
  | cons a t ih =>
      cases i with
      | zero => simp
      | succ j =>
          simp only [List.set, List.getD, List.get?]
          simp only [List.length_cons, Nat.succ_lt_succ_iff] at hi
          simp only [List.getD] at ih
          rw [List.cons.injEq]
          exact ⟨rfl, ih j hi⟩

lemma getD_set_ne (l : List Bool) (i j : Nat) (v : Bool) (hij : i ≠ j) :
    (l.set i v).getD j false = l.getD j false := by
  induction l generalizing i j with
  | nil => simp
  | cons a t ih =>
      cases i with
      | zero =>
          cases j with
          | zero => exact absurd rfl hij
          | succ k => simp [List.getD]
      | succ m =>
          cases j with
          | zero => simp [List.getD]
          | succ k =>
              simp only [List.set, List.getD_cons_succ]
              exact ih m k (fun h => hij (by rw [h]))

lemma getD_set_self (l : List Bool) (i : Nat) (v : Bool) (hi : i < l.length) :
    (l.set i v).getD i false = v := by
  induction l generalizing i with
  | nil => simp at hi
  | cons a t ih =>
      cases i with
      | zero => simp [List.getD]
      | succ j =>
          simp only [List.set, List.getD_cons_succ]
          simp only [List.length_cons, Nat.succ_lt_succ_iff] at hi
          exact ih j hi

/-- Row-major index of an in-bounds coordinate is within the buffer. -/
lemma idx_lt (w h x y : Nat) (hx : x < w) (hy : y < h) : y * w + x < w * h := by
  calc y * w + x < y * w + w := by omega
    _ = (y + 1) * w := by ring
    _ ≤ h * w := Nat.mul_le_mul_right w hy
    _ = w * h := Nat.mul_comm h w

/-! ## Claim theorems -/

/-- C2: on a toroidal (wrap) board with positive dimensions, the cell lookup
reduces each coordinate modulo its dimension as `((c % n) + n) % n` and
always yields a valid cell; a probe at `x = -1` resolves to the same cell as
`x = W-1`, a probe at `x = W` to the same cell as `x = 0`, and symmetrically
for `y`; shifting a coordinate by a full period leaves the lookup
unchanged. -/
theorem toroidal_getCell_wraps (b : Board) (hwrap : b.wrap = true)
    (hw : 0 < b.w) (hh : 0 < b.h) :
    (∀ x y : Int, (b.getCell x y).isSome) ∧
    (∀ x y : Int, b.getCell x y =
      some (b.cells.getD
        ((((y % (b.h : Int)) + b.h) % b.h).toNat * b.w
          + (((x % (b.w : Int)) + b.w) % b.w).toNat) false)) ∧
    (∀ x y : Int, b.getCell (x + b.w) y = b.getCell x y
      ∧ b.getCell x (y + b.h) = b.getCell x y) ∧
    (∀ y : Int, b.getCell (-1) y = b.getCell ((b.w : Int) - 1) y
      ∧ b.getCell (b.w : Int) y = b.getCell 0 y) ∧
    (∀ x : Int, b.getCell x (-1) = b.getCell x ((b.h : Int) - 1)
      ∧ b.getCell x (b.h : Int) = b.getCell x 0) := by
  refine ⟨?_, ?_, ?_, ?_, ?_⟩
  · intro x y
    simp [Board.getCell, hwrap]
  · intro x y
    simp [Board.getCell, hwrap]
  · intro x y
    constructor
    · exact toroidal_getCell_congr b hwrap Int.add_emod_self rfl
    · exact toroidal_getCell_congr b hwrap rfl Int.add_emod_self
  · intro y
    constructor
    · refine toroidal_getCell_congr b hwrap ?_ rfl
      have h1 : ((b.w : Int) - 1) = -1 + (b.w : Int) := by ring
      rw [h1, Int.add_emod_self]
    · refine toroidal_getCell_congr b hwrap ?_ rfl
      rw [Int.emod_self, Int.zero_emod]
  · intro x
    constructor
    · refine toroidal_getCell_congr b hwrap rfl ?_
      have h1 : ((b.h : Int) - 1) = -1 + (b.h : Int) := by ring
      rw [h1, Int.add_emod_self]
    · refine toroidal_getCell_congr b hwrap rfl ?_
      rw [Int.emod_self, Int.zero_emod]

/-- C2 witness: the toroidal wrap equivalences instantiated on a concrete
3×3 wrapped board. -/
theorem toroidal_getCell_wraps_witness :
    (initBoard 3 3 true).wrap = true ∧ 0 < (initBoard 3 3 true).w ∧
    0 < (initBoard 3 3 true).h ∧
    ((initBoard 3 3 true).getCell (-1) 0
      = (initBoard 3 3 true).getCell (((initBoard 3 3 true).w : Int) - 1) 0) :=
  ⟨rfl, by decide, by decide,
    ((toroidal_getCell_wraps (initBoard 3 3 true) rfl (by decide) (by decide)).2.2.2.1 0).1⟩

/-- C3: on a bounded (non-wrap) board, the cell lookup returns "no such
cell" for every coordinate outside `[0,w)×[0,h)`, and the living-neighbor
count used by the update reduces to a sum in which every out-of-bounds probe
contributes 0, only in-bounds buffer cells being consulted. -/
theorem bounded_getCell_none_and_count (b : Board) (hwrap : b.wrap = false) :
    (∀ x y : Int, ¬(0 ≤ x ∧ x < (b.w : Int) ∧ 0 ≤ y ∧ y < (b.h : Int)) →
      b.getCell x y = none) ∧
    (∀ x y : Int, b.countNeighbors x y =
      (mooreOffsets.map (fun d =>
        if 0 ≤ x + d.1 ∧ x + d.1 < (b.w : Int) ∧ 0 ≤ y + d.2 ∧ y + d.2 < (b.h : Int) then
          (if b.cells.getD ((y + d.2).toNat * b.w + (x + d.1).toNat) false then 1 else 0)
        else 0)).sum) := by
  constructor
  · intro x y hout
    simp [Board.getCell, hwrap, hout]
  · intro x y
    unfold Board.countNeighbors
    congr 1
    apply List.map_congr_left
    intro d _
    by_cases hin : 0 ≤ x + d.1 ∧ x + d.1 < (b.w : Int) ∧ 0 ≤ y + d.2 ∧ y + d.2 < (b.h : Int)
    · simp only [Board.getCell, hwrap, if_false, Bool.false_eq_true, hin, if_true]
      cases hb : b.cells.getD ((y + d.2).toNat * b.w + (x + d.1).toNat) false <;> simp [hb]
    · simp only [Board.getCell, hwrap, Bool.false_eq_true, if_false, hin]

/-- C3 witness: a concrete bounded 5×5 board where the out-of-range probe at
`(-1, 0)` yields no cell. -/
theorem bounded_getCell_none_and_count_witness :
    (initBoard 5 5 false).wrap = false ∧
    (initBoard 5 5 false).getCell (-1) 0 = none :=
  ⟨rfl, (bounded_getCell_none_and_count (initBoard 5 5 false) rfl).1 (-1) 0 (by decide)⟩

lemma board_cells_ext (b : Board) (c : List Bool) (h : c = b.cells) :
    { b with cells := c } = b := by
  rw [h]

/-- C7: toggling an in-bounds cell flips exactly that cell and returns the
resulting state; toggling it twice restores the board exactly, and every
other cell is unchanged by either call; dimensions are untouched. -/
theorem toggleCell_flips_and_involutes (b : Board) (x y : Nat)
    (hx : x < b.w) (hy : y < b.h) (hlen : b.cells.length = b.w * b.h) :
    (toggleCell b x y).1 = ! b.cellAt x y ∧
    ((toggleCell b x y).2).cellAt x y = ! b.cellAt x y ∧
    (toggleCell ((toggleCell b x y).2) x y).2 = b ∧
    (∀ x2 y2, x2 < b.w → y2 < b.h → ¬(x2 = x ∧ y2 = y) →
      ((toggleCell b x y).2).cellAt x2 y2 = b.cellAt x2 y2) ∧
    ((toggleCell b x y).2).w = b.w ∧ ((toggleCell b x y).2).h = b.h := by
  have hi : y * b.w + x < b.cells.length := by
    rw [hlen]; exact idx_lt b.w b.h x y hx hy
  refine ⟨rfl, ?_, ?_, ?_, rfl, rfl⟩
  · show (b.cells.set (y * b.w + x) _).getD (y * b.w + x) false = _
    exact getD_set_self _ _ _ hi
  · show ({ b with cells := _ } : Board) = b
    apply board_cells_ext
    show (b.cells.set (y * b.w + x) _).set (y * b.w + x)
        (! (b.cells.set (y * b.w + x) _).getD (y * b.w + x) false) = b.cells
    rw [getD_set_self _ _ _ hi, Bool.not_not, List.set_set]
    exact set_getD_self _ _ hi
  · intro x2 y2 hx2 hy2 hne
    have hidx : y * b.w + x ≠ y2 * b.w + x2 := by
      intro heq
      rcases rowMajor_inj hx hx2 heq with ⟨hxx, hyy⟩
      exact hne ⟨hxx.symm, hyy.symm⟩
    show (b.cells.set (y * b.w + x) _).getD (y2 * b.w + x2) false = _
    exact getD_set_ne _ _ _ _ hidx

/-- C7 witness: the toggle pair applied at cell `(1,1)` of a concrete 3×3
board restores the board exactly. -/
theorem toggleCell_flips_and_involutes_witness :
    (1 < (initBoard 3 3 false).w ∧ 1 < (initBoard 3 3 false).h ∧
      (initBoard 3 3 false).cells.length
        = (initBoard 3 3 false).w * (initBoard 3 3 false).h) ∧
    (toggleCell ((toggleCell (initBoard 3 3 false) 1 1).2) 1 1).2
      = initBoard 3 3 false :=
  ⟨⟨by decide, by decide, by decide⟩,
    (toggleCell_flips_and_involutes (initBoard 3 3 false) 1 1
      (by decide) (by decide) (by decide)).2.2.1⟩

lemma parseDigits_lt {cs : List Char} {l : List Nat}
    (h : parseDigits cs = some l) : ∀ d ∈ l, d < 9 := by
  induction cs generalizing l with
  | nil =>
      simp only [parseDigits, Option.some.injEq] at h
      subst h; intro d hd; simp at hd
  | cons c cs ih =>
      simp only [parseDigits] at h
      split at h
      · next hc =>
          cases hrec : parseDigits cs with
          | none => rw [hrec] at h; simp at h
          | some ds =>
              rw [hrec] at h
              simp only [Option.map_some', Option.some.injEq] at h
              subst h
              intro d hd
              rcases List.mem_cons.mp hd with h1 | h2
              · subst h1
                have h8 : c.toNat ≤ 56 := hc.2
                omega
              · exact ih hrec d h2
      · exact absurd h (by simp)

lemma parseRules_digits_lt {s : String} {r : Rule}
    (h : parseRules s = some r) :
    (∀ d ∈ r.birth, d < 9) ∧ (∀ d ∈ r.survive, d < 9) := by
  unfold parseRules at h
  split at h
  · next rest _ =>
      split at h
      · next spart _ =>
          split at h
          · next bs ss hb hs =>
              simp only [Option.some.injEq] at h
              subst h
              exact ⟨parseDigits_lt hb, parseDigits_lt hs⟩
          · exact absurd h (by simp)
      · exact absurd h (by simp)
  · exact absurd h (by simp)

lemma canonDigits_mem {l : List Nat} (hl : ∀ d ∈ l, d < 9) :
    ∀ d, d ∈ canonDigits l ↔ d ∈ l := by
  intro d
  simp only [canonDigits, List.mem_filter, List.mem_range, decide_eq_true_eq]
  constructor
  · exact fun h => h.2
  · exact fun h => ⟨hl d h, h⟩

lemma canonDigits_sorted (l : List Nat) : (canonDigits l).Sorted (· < ·) :=
  (List.pairwise_lt_range 9).sublist (List.filter_sublist _)

lemma canonDigits_nodup (l : List Nat) : (canonDigits l).Nodup :=
  (canonDigits_sorted l).nodup

/-- C4: a rule string accepted by the parser, once installed by `setRules`,
is rendered back by `getRules` as the canonical `B<digits>/S<digits>` string
whose digit runs are ascending and deduplicated and denote exactly the
birth and survival sets the input string denoted. -/
theorem getRules_setRules_roundtrip (b : Board) (s : String) (r : Rule)
    (hparse : parseRules s = some r) :
    getRules (setRules b s)
      = "B" ++ digitsStr (canonDigits r.birth) ++ "/S" ++ digitsStr (canonDigits r.survive) ∧
    (∀ d, d ∈ canonDigits r.birth ↔ d ∈ r.birth) ∧
    (∀ d, d ∈ canonDigits r.survive ↔ d ∈ r.survive) ∧
    (canonDigits r.birth).Sorted (· < ·) ∧ (canonDigits r.birth).Nodup ∧
    (canonDigits r.survive).Sorted (· < ·) ∧ (canonDigits r.survive).Nodup := by
  obtain ⟨hb, hs⟩ := parseRules_digits_lt hparse
  refine ⟨?_, canonDigits_mem hb, canonDigits_mem hs,
    canonDigits_sorted _, canonDigits_nodup _,
    canonDigits_sorted _, canonDigits_nodup _⟩
  simp [setRules, getRules, hparse, renderRule]

/-- C4 witness: the unordered, duplicated rule string `B62/S335` installed
on a concrete board reads back canonically. -/
theorem getRules_setRules_roundtrip_witness :
    parseRules "B62/S335" = some ⟨[6, 2], [3, 3, 5]⟩ ∧
    getRules (setRules (initBoard 0 0 false) "B62/S335")
      = "B" ++ digitsStr (canonDigits [6, 2]) ++ "/S" ++ digitsStr (canonDigits [3, 3, 5]) :=
  ⟨by decide,
    (getRules_setRules_roundtrip (initBoard 0 0 false) "B62/S335"
      ⟨[6, 2], [3, 3, 5]⟩ (by decide)).1⟩

/-- C5: a malformed rule string (one the parser rejects: missing `B`/`S`
marker, out-of-range or non-digit character) leaves the board completely
untouched — in particular the previously active rule still parses to the
same sets; the parser's rejection (its `none` result) is the "not applied"
signal. -/
theorem setRules_rejects_malformed (b : Board) (s : String)
    (hbad : parseRules s = none) :
    setRules b s = b ∧
    getRules (setRules b s) = getRules b ∧
    (∀ r : Rule, parseRules (getRules b) = some r →
      parseRules (getRules (setRules b s)) = some r) := by
  have h1 : setRules b s = b := by simp [setRules, hbad]
  exact ⟨h1, by rw [h1], fun r hr => by rw [h1]; exact hr⟩

/-- C5 witness: the out-of-range string `B9/S23` is rejected and a concrete
board keeps its rule. -/
theorem setRules_rejects_malformed_witness :
    parseRules "B9/S23" = none ∧
    setRules (initBoard 0 0 false) "B9/S23" = initBoard 0 0 false :=
  ⟨by decide,
    (setRules_rejects_malformed (initBoard 0 0 false) "B9/S23" (by decide)).1⟩

lemma rowMajor_mod (w x y : Nat) (hx : x < w) : (y * w + x) % w = x := by
  rw [Nat.add_comm, Nat.add_mul_mod_self_right]
  exact Nat.mod_eq_of_lt hx

lemma rowMajor_div (w x y : Nat) (hx : x < w) : (y * w + x) / w = y := by
  rw [Nat.add_comm, Nat.add_mul_div_right _ _ (Nat.lt_of_le_of_lt (Nat.zero_le x) hx)]
  simp [Nat.div_eq_of_lt hx]

/-- C1: a successful update replaces the buffer with exactly one
generation's transition computed from the stable pre-update grid: a cell is
alive afterwards iff it was dead with a neighbor count (taken over the 8
Moore offsets through the topology lookup on the pre-update board) in the
birth set, or alive with a count in the survival set; width, height, rule
and topology are unchanged and the buffer keeps its `w*h` length. -/
theorem updateBoard_one_generation (b : Board)
    (hlen : b.cells.length = b.w * b.h) :
    (updateBoard b).w = b.w ∧ (updateBoard b).h = b.h ∧
    (updateBoard b).rules = b.rules ∧ (updateBoard b).wrap = b.wrap ∧
    (updateBoard b).cells.length = b.w * b.h ∧
    (∀ x y, x < b.w → y < b.h →
      ((updateBoard b).cellAt x y = true ↔
        ((b.cellAt x y = false ∧ b.countNeighbors x y ∈ b.birthSet) ∨
         (b.cellAt x y = true ∧ b.countNeighbors x y ∈ b.surviveSet)))) := by
  refine ⟨rfl, rfl, rfl, rfl, by simp [updateBoard], ?_⟩
  intro x y hx hy
  have hcell : (updateBoard b).cellAt x y = b.nextCellState x y := by
    show ((List.range (b.w * b.h)).map
        (fun i => b.nextCellState (i % b.w) (i / b.w))).getD (y * b.w + x) false = _
    rw [getD_map_range _ _ _ _ (idx_lt b.w b.h x y hx hy)]
    rw [rowMajor_mod b.w x y hx, rowMajor_div b.w x y hx]
  rw [hcell]
  unfold Board.nextCellState
  cases hc : b.cellAt x y <;> simp [hc]

/-- C1 witness: the update theorem applied to a concrete 3×3 blinker
board, read back at the cell `(0,1)`. -/
theorem updateBoard_one_generation_witness :
    blinker3.cells.length = blinker3.w * blinker3.h ∧
    ((updateBoard blinker3).cellAt 0 1 = true ↔
      ((blinker3.cellAt 0 1 = false ∧ blinker3.countNeighbors 0 1 ∈ blinker3.birthSet) ∨
       (blinker3.cellAt 0 1 = true ∧ blinker3.countNeighbors 0 1 ∈ blinker3.surviveSet))) :=
  ⟨by decide,
    (updateBoard_one_generation blinker3 (by decide)).2.2.2.2.2 0 1
      (by decide) (by decide)⟩

/-- C6: when the scratch-buffer allocation for `updateBoard` fails, the call
reports failure and the board — cells, dimensions, rule, topology — is
exactly the board that went in; when it succeeds it reports success and
applies one generation. -/
theorem updateBoard_alloc_failure_preserves (b : Board) :
    (updateBoardAlloc false b).1 = false ∧
    (updateBoardAlloc false b).2 = b ∧
    (updateBoardAlloc false b).2.cells = b.cells ∧
    (updateBoardAlloc false b).2.w = b.w ∧
    (updateBoardAlloc false b).2.h = b.h ∧
    (updateBoardAlloc false b).2.rules = b.rules ∧
    (updateBoardAlloc false b).2.wrap = b.wrap ∧
    updateBoardAlloc true b = (true, updateBoard b) :=
  ⟨rfl, rfl, rfl, rfl, rfl, rfl, rfl, rfl⟩

/-- C8: `initBoard` with zero width and height defaults to 80×60, yields
`width*height` dead cells, installs the standard Conway rule `B3/S23`
(birth on 3, survival on {2,3}), records the requested topology, and with
the allocation made explicit returns success exactly when the buffer was
obtained. -/
theorem initBoard_defaults_conway (wrap : Bool) :
    (initBoard 0 0 wrap).w = 80 ∧ (initBoard 0 0 wrap).h = 60 ∧
    (initBoard 0 0 wrap).cells.length = 80 * 60 ∧
    (∀ c ∈ (initBoard 0 0 wrap).cells, c = false) ∧
    (initBoard 0 0 wrap).rules = "B3/S23" ∧
    (initBoard 0 0 wrap).birthSet = [3] ∧
    (initBoard 0 0 wrap).surviveSet = [2, 3] ∧
    (initBoard 0 0 wrap).wrap = wrap ∧
    (∀ alloc, (initBoardAlloc alloc 0 0 wrap).isSome = alloc) := by
  refine ⟨rfl, rfl, ?_, ?_, rfl, rfl, rfl, rfl, ?_⟩
  · show (List.replicate (80 * 60) false).length = 80 * 60
    exact List.length_replicate _ _
  · intro c hc
    exact List.eq_of_mem_replicate hc
  · intro alloc
    cases alloc <;> rfl

lemma applyOp_preserves (b : Board) (op : BoardOp)
    (hlen : b.cells.length = b.w * b.h) :
    (applyOp b op).w = b.w ∧ (applyOp b op).h = b.h ∧
    (applyOp b op).cells.length = b.w * b.h := by
  cases op with
  | toggle x y =>
      refine ⟨rfl, rfl, ?_⟩
      show (b.cells.set _ _).length = _
      rw [List.length_set]; exact hlen
  | clear =>
      refine ⟨rfl, rfl, ?_⟩
      show (b.cells.map _).length = _
      rw [List.length_map]; exact hlen
  | setR s =>
      cases hp : parseRules s with
      | none =>
          have he : applyOp b (BoardOp.setR s) = b := by
            show setRules b s = b
            unfold setRules; rw [hp]
          rw [he]; exact ⟨rfl, rfl, hlen⟩
      | some r =>
          have he : applyOp b (BoardOp.setR s) = { b with rules := renderRule r } := by
            show setRules b s = _
            unfold setRules; rw [hp]
          rw [he]; exact ⟨rfl, rfl, hlen⟩
  | getR => exact ⟨rfl, rfl, hlen⟩
  | update alloc =>
      cases alloc with
      | false => exact ⟨rfl, rfl, hlen⟩
      | true =>
          refine ⟨rfl, rfl, ?_⟩
          show ((List.range _).map _).length = _
          simp

/-- C9: across any sequence of the documented operations, the cell buffer's
length stays equal to `width*height`, and width and height never change. -/
theorem dimension_invariant (b : Board) (ops : List BoardOp)
    (hlen : b.cells.length = b.w * b.h) :
    (applyOps b ops).cells.length = (applyOps b ops).w * (applyOps b ops).h ∧
    (applyOps b ops).w = b.w ∧ (applyOps b ops).h = b.h := by
  induction ops generalizing b with
  | nil => exact ⟨hlen, rfl, rfl⟩
  | cons op ops ih =>
      have hstep : applyOps b (op :: ops) = applyOps (applyOp b op) ops := rfl
      rw [hstep]
      obtain ⟨hw, hh, hl⟩ := applyOp_preserves b op hlen
      have hlen' : (applyOp b op).cells.length = (applyOp b op).w * (applyOp b op).h := by
        rw [hw, hh]; exact hl
      obtain ⟨a1, a2, a3⟩ := ih (applyOp b op) hlen'
      exact ⟨a1, by rw [a2, hw], by rw [a3, hh]⟩

/-- C9 witness: the invariant across a concrete lifetime — toggle, a
successful update, a failed update, clear, a rule change, a rule read — on
a 2×2 wrapped board. -/
theorem dimension_invariant_witness :
    (initBoard 2 2 true).cells.length = (initBoard 2 2 true).w * (initBoard 2 2 true).h ∧
    ((applyOps (initBoard 2 2 true)
        [BoardOp.toggle 0 0, BoardOp.update true, BoardOp.update false,
         BoardOp.clear, BoardOp.setR "B1/S", BoardOp.getR]).cells.length
      = (applyOps (initBoard 2 2 true)
          [BoardOp.toggle 0 0, BoardOp.update true, BoardOp.update false,
           BoardOp.clear, BoardOp.setR "B1/S", BoardOp.getR]).w
        * (applyOps (initBoard 2 2 true)
            [BoardOp.toggle 0 0, BoardOp.update true, BoardOp.update false,
             BoardOp.clear, BoardOp.setR "B1/S", BoardOp.getR]).h) :=
  ⟨by decide,
    (dimension_invariant (initBoard 2 2 true)
      [BoardOp.toggle 0 0, BoardOp.update true, BoardOp.update false,
       BoardOp.clear, BoardOp.setR "B1/S", BoardOp.getR] (by decide)).1⟩

/-- C10: a `getRules` call returns the board's rule string and leaves every
field of the board — width, height, cells, rules, topology — exactly as it
was. -/
theorem getRules_modifies_nothing (b : Board) :
    (getRulesCall b).1 = b.rules ∧
    (getRulesCall b).2 = b ∧
    (getRulesCall b).2.w = b.w ∧ (getRulesCall b).2.h = b.h ∧
    (getRulesCall b).2.cells = b.cells ∧
    (getRulesCall b).2.rules = b.rules ∧
    (getRulesCall b).2.wrap = b.wrap :=
  ⟨rfl, rfl, rfl, rfl, rfl, rfl, rfl⟩
